import Mathlib

/-!
Verification of the control-number allocation / validation / repair subsystem
of the document-management server (`server/lib/db.js` and `server/index.js`).

JavaScript strings are modelled as `List Char`; SQL rows as structures; the
database as an explicit state record threaded through each operation.  The
sqlite branch of each `db.js` function is the primary model (`DB_MODE`
defaults to `sqlite`); the postgres branch of `getNextCounter` is modelled
separately because the two branches genuinely differ.

The regular expressions used by the source to recover sequence numbers,
dash+digits-at-end, dash+digits+dash+digits-at-end, and the MC variant, are all anchored at
the end of the string, so a match is exactly: the maximal trailing digit run
(for the last group), preceded by the required literal context.  The
extractors below implement that reading directly.
-/

set_option maxRecDepth 8000

abbrev Str := List Char

/-- JavaScript truthiness of a nullable string: `null`/`undefined` and the
empty string are falsy. -/
def jsTruthy : Option Str → Bool
  | none => false
  | some s => !s.isEmpty

/-- JavaScript `a || b` on nullable strings. -/
def jsOr (a b : Option Str) : Option Str := if jsTruthy a then a else b

/-- JavaScript `a || null`. -/
def jsOrNull (a : Option Str) : Option Str := if jsTruthy a then a else none

/-- JavaScript `a ?? b` (nullish coalescing) on nullable strings. -/
def nullishOr (a b : Option Str) : Option Str :=
  match a with
  | none => b
  | some v => some v

/-- SQL `=` on nullable text: `NULL` never compares equal. -/
def sqlEq (a b : Option Str) : Bool :=
  match a, b with
  | some x, some y => decide (x = y)
  | _, _ => false

/-- Numeric value of a decimal digit character. -/
def charToDigit (c : Char) : Nat := c.toNat - 48

/-- Little-endian decimal digits, with an explicit structural fuel so that
concrete terms reduce inside the kernel. -/
def digitsFuel : Nat → Nat → List Nat
  | 0, _ => []
  | f + 1, n => if n = 0 then [] else n % 10 :: digitsFuel f (n / 10)

/-- JavaScript `String(n)` for a non-negative integer: its decimal digits. -/
def decRepr (n : Nat) : Str :=
  if n = 0 then ['0'] else ((digitsFuel n n).map Nat.digitChar).reverse

/-- `String(seq).padStart(2, '0')`. -/
def padStart2 (s : Str) : Str :=
  if s.length < 2 then List.replicate (2 - s.length) '0' ++ s else s

/-- `dateStr` with every hyphen removed, then `.slice(2)`, from `formatCtrlNo`. -/
def shortDate (dateStr : Str) : Str := (dateStr.filter (fun c => c ≠ '-')).drop 2

/-- `section ? \x60-${section}\x60 : '-MC'` from `formatCtrlNo`. -/
def ctrlSuffix (sec : Option Str) : Str :=
  match sec with
  | some s => '-' :: s
  | none => ['-', 'M', 'C']

/-- `formatCtrlNo(prefix, section, dateStr, seq)` from `server/index.js`:
`"{prefix}{-section | -MC}-{shortDate}-{paddedSeq}"`. -/
def formatCtrlNo (pfx : Str) (sec : Option Str) (dateStr : Str) (seq : Nat) : Str :=
  pfx ++ ctrlSuffix sec ++ ['-'] ++ shortDate dateStr ++ ['-'] ++ padStart2 (decRepr seq)

/-- A date string of the exact shape `YYYY-MM-DD`. -/
def isIsoDate (s : Str) : Bool :=
  match s with
  | [y1, y2, y3, y4, h1, m1, m2, h2, d1, d2] =>
      y1.isDigit && y2.isDigit && y3.isDigit && y4.isDigit && h1 = '-' &&
      m1.isDigit && m2.isDigit && h2 = '-' && d1.isDigit && d2.isDigit
  | _ => false

/-- The regex matching a final `-` followed by digits at end of string, applied to `s`, returning `parseInt(match[1], 10)`:
the maximal trailing digit run, which must be non-empty and preceded by `'-'`.
Used by the allocator's self-healing scan (`db.js` line 205). -/
def extractSeq (s : Str) : Option Nat :=
  if (s.reverse.takeWhile Char.isDigit).isEmpty then none
  else
    match s.reverse.dropWhile Char.isDigit with
    | '-' :: _ => some (Nat.ofDigits 10 ((s.reverse.takeWhile Char.isDigit).map charToDigit))
    | _ => none

/-- The regex matching `-digits-digits` at end of string, applied to `s`, returning
`parseInt(match[2], 10)`.  Used by `resetCountersForSection` and
`validateControlNumbers` for section control numbers. -/
def extractPairSeq (s : Str) : Option Nat :=
  if (s.reverse.takeWhile Char.isDigit).isEmpty then none
  else
    match s.reverse.dropWhile Char.isDigit with
    | '-' :: r2 =>
        if (r2.takeWhile Char.isDigit).isEmpty then none
        else
          match r2.dropWhile Char.isDigit with
          | '-' :: _ => some (Nat.ofDigits 10 ((s.reverse.takeWhile Char.isDigit).map charToDigit))
          | _ => none
    | _ => none

/-- The regex matching `-MC-digits-digits` at end of string, applied to `s`, returning
`parseInt(match[2], 10)`.  Used by `resetCountersForSection` and
`validateControlNumbers` for MC (office-wide) control numbers. -/
def extractMCSeq (s : Str) : Option Nat :=
  if (s.reverse.takeWhile Char.isDigit).isEmpty then none
  else
    match s.reverse.dropWhile Char.isDigit with
    | '-' :: r2 =>
        if (r2.takeWhile Char.isDigit).isEmpty then none
        else
          match r2.dropWhile Char.isDigit with
          | '-' :: 'C' :: 'M' :: '-' :: _ =>
              some (Nat.ofDigits 10 ((s.reverse.takeWhile Char.isDigit).map charToDigit))
          | _ => none
    | _ => none

/-! ### Data model

One row of the `records` table and one row of the `counters` table, as created
by `initDb`.  All text columns are nullable.  `id` is an autoincrement primary
key, so `DB.records` is kept in ascending-id order (every state built by the
operations below preserves this), which makes a plain list traversal agree
with the source's `ORDER BY id` reads. -/

inductive Scope where
  | MC
  | SECTION
deriving DecidableEq, Repr

structure RecordRow where
  id : Nat
  mcCtrlNo : Option Str := none
  sectionCtrlNo : Option Str := none
  sec : Option Str := none
  dateReceived : Option Str := none
  subjectText : Option Str := none
  subjectFileUrl : Option Str := none
  fromValue : Option Str := none
  fromType : Option Str := none
  targetDate : Option Str := none
  targetDateMode : Option Str := none
  receivedBy : Option Str := none
  actionTaken : Option Str := none
  remarks : Option Str := none
  concernedUnits : Option Str := none
  dateSent : Option Str := none
  createdBy : Option Str := none
  updatedBy : Option Str := none
  createdAt : Option Str := none
  updatedAt : Option Str := none
deriving DecidableEq, Repr

structure CounterRow where
  id : Nat
  scope : Scope
  sec : Option Str
  currentNumber : Nat
  lastDateUsed : Option Str
deriving DecidableEq, Repr

structure DB where
  records : List RecordRow := []
  counters : List CounterRow := []
  nextRecordId : Nat := 1
  nextCounterId : Nat := 1
deriving DecidableEq, Repr

/-- `SELECT * FROM counters WHERE scope = ? AND section IS ?` (null-safe
equality, like postgres's `IS NOT DISTINCT FROM`). -/
def findCounter (db : DB) (scope : Scope) (sec : Option Str) : Option CounterRow :=
  db.counters.find? (fun c => decide (c.scope = scope) && decide (c.sec = sec))

/-- `UPDATE counters SET ... WHERE id = ?`. -/
def updateCounterById (db : DB) (cid : Nat) (f : CounterRow → CounterRow) : DB :=
  { db with counters := db.counters.map (fun c => if c.id = cid then f c else c) }

/-- The `WHERE section = ? AND dateReceived = ?` record filter used by the
self-healing scan, `resetCountersForSection` and `validateControlNumbers`. -/
def partitionRecords (db : DB) (sec dateReceived : Option Str) : List RecordRow :=
  db.records.filter (fun r => sqlEq r.sec sec && sqlEq r.dateReceived dateReceived)

/-- One step of the "find the highest actual sequence number" loop inside
`getNextCounter` (`db.js` lines 201-211): pick the control number for the
requested scope, skip falsy values, extract the trailing sequence with the
single-group regex, keep the maximum. -/
def haStep (scope : Scope) (acc : Nat) (r : RecordRow) : Nat :=
  match (if scope = Scope.MC then r.mcCtrlNo else r.sectionCtrlNo) with
  | some cn =>
      if cn.isEmpty then acc
      else
        match extractSeq cn with
        | some seq => if seq > acc then seq else acc
        | none => acc
  | none => acc

/-- `highestActual` from the self-healing scan in `getNextCounter`. -/
def highestActual (scope : Scope) (recs : List RecordRow) : Nat :=
  recs.foldl (haStep scope) 0

/-- `getNextCounter({scope, section, dateReceived})`, sqlite branch
(`db.js` lines 188-236).  Returns the allocated sequence number and the new
database state. -/
def getNextCounter (db : DB) (scope : Scope) (sec dateReceived : Option Str) : Nat × DB :=
  match findCounter db scope sec with
  | none =>
      (1, { db with
              counters := db.counters ++
                [⟨db.nextCounterId, scope, sec, 1, jsOrNull dateReceived⟩],
              nextCounterId := db.nextCounterId + 1 })
  | some existing =>
      let dateChanged := jsTruthy dateReceived && decide (existing.lastDateUsed ≠ dateReceived)
      let hi := highestActual scope (partitionRecords db sec dateReceived)
      if !dateChanged && jsTruthy sec && jsTruthy dateReceived
          && decide (existing.currentNumber > hi) then
        -- self-healing branch: persists `highestActual`, returns `highestActual + 1`
        (hi + 1, updateCounterById db existing.id (fun c => { c with currentNumber := hi }))
      else
        let next := (if dateChanged then 0 else existing.currentNumber) + 1
        (next, updateCounterById db existing.id (fun c =>
          { c with currentNumber := next,
                   lastDateUsed := jsOr dateReceived existing.lastDateUsed }))

/-- `getNextCounter({scope, section, dateReceived})`, postgres branch
(`db.js` lines 237-292).  The only behavioural difference from the sqlite
branch is inside the self-healing branch: after writing `highestActual` it
writes `currentNumber = next, lastDateUsed = dateReceived || old` and returns
`next`. -/
def getNextCounterPg (db : DB) (scope : Scope) (sec dateReceived : Option Str) : Nat × DB :=
  match findCounter db scope sec with
  | none =>
      (1, { db with
              counters := db.counters ++
                [⟨db.nextCounterId, scope, sec, 1, jsOrNull dateReceived⟩],
              nextCounterId := db.nextCounterId + 1 })
  | some existing =>
      let dateChanged := jsTruthy dateReceived && decide (existing.lastDateUsed ≠ dateReceived)
      let hi := highestActual scope (partitionRecords db sec dateReceived)
      if !dateChanged && jsTruthy sec && jsTruthy dateReceived
          && decide (existing.currentNumber > hi) then
        let db1 := updateCounterById db existing.id (fun c => { c with currentNumber := hi })
        (hi + 1, updateCounterById db1 existing.id (fun c =>
          { c with currentNumber := hi + 1,
                   lastDateUsed := jsOr dateReceived existing.lastDateUsed }))
      else
        let next := (if dateChanged then 0 else existing.currentNumber) + 1
        (next, updateCounterById db existing.id (fun c =>
          { c with currentNumber := next,
                   lastDateUsed := jsOr dateReceived existing.lastDateUsed }))

/-- `peekNextCounter(existing, dateReceived)` (`db.js` lines 167-174). -/
def peekNextCounter (existing : Option CounterRow) (dateReceived : Option Str) : Nat :=
  match existing with
  | none => 1
  | some e =>
      let dateChanged := jsTruthy dateReceived && decide (e.lastDateUsed ≠ dateReceived)
      (if dateChanged then 0 else e.currentNumber) + 1

/-- `getNextCounterPreview({scope, section, dateReceived})` (`db.js` lines
176-186).  It only runs a `SELECT`, so the database state is returned
unchanged; the pair shape mirrors `getNextCounter` for comparison. -/
def getNextCounterPreviewSt (db : DB) (scope : Scope) (sec dateReceived : Option Str) :
    Nat × DB :=
  (peekNextCounter (findCounter db scope sec) dateReceived, db)

/-- The value returned to the caller by `getNextCounterPreview`. -/
def getNextCounterPreview (db : DB) (scope : Scope) (sec dateReceived : Option Str) : Nat :=
  (getNextCounterPreviewSt db scope sec dateReceived).1

/-- One step of the highest-sequence loop in `resetCountersForSection`
(`db.js` lines 569-588): the MC component uses the `-MC-` two-group regex on
`mcCtrlNo`, the section component the plain two-group regex on
`sectionCtrlNo`. -/
def rhMC (acc : Nat) (r : RecordRow) : Nat :=
  match r.mcCtrlNo with
  | some cn =>
      if cn.isEmpty then acc
      else
        match extractMCSeq cn with
        | some seq => if seq > acc then seq else acc
        | none => acc
  | none => acc

def rhSec (acc : Nat) (r : RecordRow) : Nat :=
  match r.sectionCtrlNo with
  | some cn =>
      if cn.isEmpty then acc
      else
        match extractPairSeq cn with
        | some seq => if seq > acc then seq else acc
        | none => acc
  | none => acc

def rhStep (acc : Nat × Nat) (r : RecordRow) : Nat × Nat :=
  (rhMC acc.1 r, rhSec acc.2 r)

/-- `(highestMC, highestSection)` as computed by `resetCountersForSection`. -/
def resetHighest (recs : List RecordRow) : Nat × Nat :=
  recs.foldl rhStep (0, 0)

/-- `resetCountersForSection(section, dateReceived)` (`db.js` lines 549-612).
Overwrites `currentNumber` of the office-wide (`scope = 'MC', section IS
NULL`) counter with the highest MC sequence found among the records of the
*passed* section and date, and of the `('SECTION', section)` counter with the
highest section sequence; `lastDateUsed` is not touched. -/
def resetCountersForSection (db : DB) (sec dateReceived : Option Str) : (Nat × Nat) × DB :=
  let recs := partitionRecords db sec dateReceived
  let h := resetHighest recs
  let counters1 := db.counters.map (fun c =>
    if decide (c.scope = Scope.MC) && decide (c.sec = none) then
      { c with currentNumber := h.1 } else c)
  let counters2 := counters1.map (fun c =>
    if decide (c.scope = Scope.SECTION) && sqlEq c.sec sec then
      { c with currentNumber := h.2 } else c)
  (h, { db with counters := counters2 })

/-! ### Validator (`validateControlNumbers`, `db.js` lines 614-693) -/

/-- One entry of the `duplicates` array: the source pushes
`{ type, controlNumber, recordId: record.id }` for the *current* record when
its control number is already in the seen-set. -/
structure DupEntry where
  type : Scope
  controlNumber : Str
  recordId : Nat
deriving DecidableEq, Repr

/-- One entry of the `issues` array: the source pushes
`{ type, message: "Missing control number sequence: " + missing }`. -/
structure IssueEntry where
  type : Scope
  message : Str
deriving DecidableEq, Repr

structure ValidationResult where
  duplicates : List DupEntry
  issues : List IssueEntry
  hasProblems : Bool
deriving DecidableEq, Repr

/-- The literal message text of a gap issue. -/
def missingMsg (n : Nat) : Str := "Missing control number sequence: ".toList ++ decRepr n

/-- JS `Set.add`: insertion-ordered, ignores values already present. -/
def addSet (s : List Str) (cn : Str) : List Str := if cn ∈ s then s else s ++ [cn]

/-- One iteration of the duplicate-detection loop, threading
`(mcNumbers, sectionNumbers, duplicates)`. -/
def dupStep (st : List Str × List Str × List DupEntry) (r : RecordRow) :
    List Str × List Str × List DupEntry :=
  let mc := st.1
  let se := st.2.1
  let dups := st.2.2
  let mc' := match r.mcCtrlNo with
    | some cn => if cn.isEmpty then mc else addSet mc cn
    | none => mc
  let dups1 := match r.mcCtrlNo with
    | some cn =>
        if cn.isEmpty then dups
        else if cn ∈ mc then dups ++ [⟨Scope.MC, cn, r.id⟩] else dups
    | none => dups
  let se' := match r.sectionCtrlNo with
    | some cn => if cn.isEmpty then se else addSet se cn
    | none => se
  let dups2 := match r.sectionCtrlNo with
    | some cn =>
        if cn.isEmpty then dups1
        else if cn ∈ se then dups1 ++ [⟨Scope.SECTION, cn, r.id⟩] else dups1
    | none => dups1
  (mc', se', dups2)

/-- Ascending insertion into a sorted list; `sortNat` models
`array.sort((a, b) => a - b)`. -/
def insertSorted (n : Nat) : List Nat → List Nat
  | [] => [n]
  | m :: t => if n ≤ m then n :: m :: t else m :: insertSorted n t

def sortNat (l : List Nat) : List Nat := l.foldr insertSorted []

/-- The gap loops (`db.js` lines 670-686): for every adjacent sorted pair with
difference above one, push one issue per missing integer. -/
def gapsFrom (scope : Scope) : List Nat → List IssueEntry
  | a :: b :: t =>
      (if b - a > 1 then
        (List.range' (a + 1) (b - a - 1)).map (fun m => ⟨scope, missingMsg m⟩)
      else []) ++ gapsFrom scope (b :: t)
  | _ => []

/-- `validateControlNumbers(section, dateReceived)`. -/
def validateControlNumbers (db : DB) (sec dateReceived : Option Str) : ValidationResult :=
  let recs := partitionRecords db sec dateReceived
  let st := recs.foldl dupStep ([], [], [])
  let mcSequences := sortNat (st.1.filterMap extractMCSeq)
  let sectionSequences := sortNat (st.2.1.filterMap extractPairSeq)
  let issues := gapsFrom Scope.MC mcSequences ++ gapsFrom Scope.SECTION sectionSequences
  ⟨st.2.2, issues, decide (st.2.2.length > 0) || decide (issues.length > 0)⟩

/-! ### Record CRUD (`db.js`) and the HTTP handlers (`server/index.js`)

The record payload carries the same nullable text fields as the row, plus the
`username` fallback used for `createdBy`/`updatedBy`. -/

structure Payload where
  mcCtrlNo : Option Str := none
  sectionCtrlNo : Option Str := none
  sec : Option Str := none
  dateReceived : Option Str := none
  subjectText : Option Str := none
  subjectFileUrl : Option Str := none
  fromValue : Option Str := none
  fromType : Option Str := none
  targetDate : Option Str := none
  targetDateMode : Option Str := none
  receivedBy : Option Str := none
  actionTaken : Option Str := none
  remarks : Option Str := none
  concernedUnits : Option Str := none
  dateSent : Option Str := none
  createdBy : Option Str := none
  updatedBy : Option Str := none
  username : Option Str := none
deriving DecidableEq, Repr

/-- `createRecord(payload)` (`db.js` lines 294-380); `now` is the caller's
clock reading for `new Date().toISOString()`. -/
def createRecord (db : DB) (p : Payload) (now : Str) : RecordRow × DB :=
  let r : RecordRow :=
    { id := db.nextRecordId
      mcCtrlNo := p.mcCtrlNo
      sectionCtrlNo := p.sectionCtrlNo
      sec := p.sec
      dateReceived := p.dateReceived
      subjectText := p.subjectText
      subjectFileUrl := jsOrNull p.subjectFileUrl
      fromValue := p.fromValue
      fromType := p.fromType
      targetDate := p.targetDate
      targetDateMode := p.targetDateMode
      receivedBy := p.receivedBy
      actionTaken := p.actionTaken
      remarks := p.remarks
      concernedUnits := p.concernedUnits
      dateSent := p.dateSent
      createdBy := jsOr p.createdBy p.username
      updatedBy := jsOr p.updatedBy p.username
      createdAt := some now
      updatedAt := some now }
  (r, { db with records := db.records ++ [r], nextRecordId := db.nextRecordId + 1 })

/-- `getRecord(id)`. -/
def getRecord (db : DB) (rid : Nat) : Option RecordRow :=
  db.records.find? (fun r => decide (r.id = rid))

/-- The merged row built by `updateRecord(id, payload)` (`db.js` lines
402-425): every column is `payload.field ?? current.field`, except the
`updatedBy`/`updatedAt` bookkeeping. -/
def mergeUpdate (current : RecordRow) (p : Payload) (now : Str) : RecordRow :=
  { id := current.id
    mcCtrlNo := nullishOr p.mcCtrlNo current.mcCtrlNo
    sectionCtrlNo := nullishOr p.sectionCtrlNo current.sectionCtrlNo
    sec := nullishOr p.sec current.sec
    dateReceived := nullishOr p.dateReceived current.dateReceived
    subjectText := nullishOr p.subjectText current.subjectText
    subjectFileUrl := nullishOr p.subjectFileUrl current.subjectFileUrl
    fromValue := nullishOr p.fromValue current.fromValue
    fromType := nullishOr p.fromType current.fromType
    targetDate := nullishOr p.targetDate current.targetDate
    targetDateMode := nullishOr p.targetDateMode current.targetDateMode
    receivedBy := nullishOr p.receivedBy current.receivedBy
    actionTaken := nullishOr p.actionTaken current.actionTaken
    remarks := nullishOr p.remarks current.remarks
    concernedUnits := nullishOr p.concernedUnits current.concernedUnits
    dateSent := nullishOr p.dateSent current.dateSent
    createdBy := current.createdBy
    updatedBy := jsOr p.updatedBy (jsOr p.username current.updatedBy)
    createdAt := current.createdAt
    updatedAt := some now }

/-- `updateRecord(id, payload)`: `null` result when the record is absent. -/
def updateRecord (db : DB) (rid : Nat) (p : Payload) (now : Str) : Option RecordRow × DB :=
  match getRecord db rid with
  | none => (none, db)
  | some current =>
      let updated := mergeUpdate current p now
      (some updated,
       { db with records := db.records.map (fun r => if r.id = rid then updated else r) })

/-- `deleteRecord(id)`. -/
def deleteRecord (db : DB) (rid : Nat) : DB :=
  { db with records := db.records.filter (fun r => !decide (r.id = rid)) }

/-- Response of `DELETE /records/:id` (`server/index.js` lines 478-511),
restricted to the fields the handler sets. -/
structure DeleteResponse where
  status : Nat
  ok : Bool
  countersReset : Option (Nat × Nat)
  validation : Option ValidationResult
  warning : Option Str
deriving DecidableEq, Repr

def deleteWarning : Str := "Record deleted but counter reset failed".toList

/-- `DELETE /records/:id`.  The record is deleted first; the subsequent
`resetCountersForSection` / `validateControlNumbers` calls sit inside a
`try`-block whose `catch` still answers `{ ok: true, warning }`.  A storage
failure inside that block is modelled by `repairFailure = some cs`: the thrown
exception aborts the repair with the counters table left in an arbitrary
partial state `cs` (the block never touches `records`). -/
def deleteRecordHandler (db : DB) (rid : Nat) (repairFailure : Option (List CounterRow)) :
    DeleteResponse × DB :=
  match getRecord db rid with
  | none => (⟨404, false, none, none, none⟩, db)
  | some record =>
      let db1 := deleteRecord db rid
      match repairFailure with
      | some partialCounters =>
          (⟨200, true, none, none, some deleteWarning⟩,
           { db1 with counters := partialCounters })
      | none =>
          let rr := resetCountersForSection db1 record.sec record.dateReceived
          let v := validateControlNumbers rr.2 record.sec record.dateReceived
          (⟨200, true, some rr.1, if v.hasProblems then some v else none, none⟩, rr.2)

/-- The fixed prefix used by `getNextControlNumbers` in `server/index.js`. -/
def rfu4a : Str := "RFU4A".toList

/-- `getNextControlNumbers(section, dateReceived, false)` followed by
`db.createRecord({...payload, mcCtrlNo, sectionCtrlNo})`: the record-creation
pipeline of `POST /records`.  Returns the two allocated sequence numbers and
the new state. -/
def allocateAndCreate (db : DB) (s d : Str) (p : Payload) (now : Str) : (Nat × Nat) × DB :=
  let mcRes := getNextCounter db Scope.MC none (some d)
  let secRes := getNextCounter mcRes.2 Scope.SECTION (some s) (some d)
  let mcCtrlNo := formatCtrlNo rfu4a none d mcRes.1
  let sectionCtrlNo := formatCtrlNo rfu4a (some s) d secRes.1
  ((mcRes.1, secRes.1),
   (createRecord secRes.2
     { p with mcCtrlNo := some mcCtrlNo, sectionCtrlNo := some sectionCtrlNo,
              sec := some s, dateReceived := some d } now).2)

/-! ### Derived predicates and operation sequences -/

/-- Whether a `getNextCounter` call on `db` would enter the self-healing
branch: a counter row exists, no date rollover, truthy section and date, and
the stored `currentNumber` exceeds the actual maximum found in the records. -/
def healWouldFire (db : DB) (scope : Scope) (sec dateReceived : Option Str) : Bool :=
  match findCounter db scope sec with
  | none => false
  | some existing =>
      let dateChanged := jsTruthy dateReceived && decide (existing.lastDateUsed ≠ dateReceived)
      !dateChanged && jsTruthy sec && jsTruthy dateReceived &&
        decide (existing.currentNumber >
          highestActual scope (partitionRecords db sec dateReceived))

/-- A record of the `(s, d)` partition as written by the creation pipeline:
its control-number strings are `formatCtrlNo` renderings for that partition. -/
def WFrec (s d : Str) (r : RecordRow) : Prop :=
  r.sec = some s ∧ r.dateReceived = some d ∧
  (∃ k, r.mcCtrlNo = some (formatCtrlNo rfu4a none d k)) ∧
  (∃ m, r.sectionCtrlNo = some (formatCtrlNo rfu4a (some s) d m))

/-- The good states of a single-partition history: exactly the two counters of
the partition, both stamped with date `d`, each holding exactly the highest
sequence number embedded in the stored records for its scope. -/
def InvB (s d : Str) (M S : Nat) (db : DB) : Prop :=
  (∃ i1 i2, i1 ≠ i2 ∧
    db.counters = [⟨i1, Scope.MC, none, M, some d⟩, ⟨i2, Scope.SECTION, some s, S, some d⟩]) ∧
  (∀ r ∈ db.records, WFrec s d r) ∧
  resetHighest db.records = (M, S)

/-- Counter invariant for a single-partition history: either nothing has been
allocated yet, or both counters track the embedded maxima. -/
def CounterInv (s d : Str) (db : DB) : Prop :=
  (db.counters = [] ∧ db.records = []) ∨ ∃ M S, InvB s d M S db

/-- The operations of a single-partition history: record creation through the
allocator pipeline, manual counter reset, and deletion with its
reset-and-validate repair. -/
inductive PartitionOp where
  | createRec
  | resetOp
  | deleteOp (rid : Nat)
deriving DecidableEq, Repr

def runPartitionOp (s d : Str) (p : Payload) (now : Str) (db : DB) : PartitionOp → DB
  | .createRec => (allocateAndCreate db s d p now).2
  | .resetOp => (resetCountersForSection db (some s) (some d)).2
  | .deleteOp rid => (deleteRecordHandler db rid none).2

def runPartitionOps (s d : Str) (p : Payload) (now : Str) (ops : List PartitionOp) : DB :=
  ops.foldl (runPartitionOp s d p now) {}

/-- `N` iterations of the creation pipeline on one partition, starting from an
empty database, collecting the `(mcSeq, sectionSeq)` pair returned by each
allocation. -/
def allocateCreateRun (s d : Str) (p : Payload) (now : Str) : Nat → List (Nat × Nat) × DB
  | 0 => ([], {})
  | n + 1 =>
      let prev := allocateCreateRun s d p now n
      let res := allocateAndCreate prev.2 s d p now
      (prev.1 ++ [res.1], res.2)

/-! ### Concrete states used by witnesses and counterexamples -/

def dI : Str := "2026-02-18".toList
def sI : Str := "INVES".toList
def sX : Str := "INTEL".toList
def tNow : Str := "2026-02-18T00:00:00.000Z".toList

/-- A stale counter: `currentNumber = 5`, while the partition's records only
reach section sequence `3`. -/
def dbStale : DB :=
  { records := [{ id := 1, sectionCtrlNo := some (formatCtrlNo rfu4a (some sI) dI 3),
                  sec := some sI, dateReceived := some dI }]
    counters := [⟨1, Scope.SECTION, some sI, 5, some dI⟩]
    nextRecordId := 2, nextCounterId := 2 }

/-- Two records of one partition sharing the same literal
`sectionControlNumber` string. -/
def dbDup : DB :=
  { records := [{ id := 1, sectionCtrlNo := some (formatCtrlNo rfu4a (some sI) dI 2),
                  sec := some sI, dateReceived := some dI },
                { id := 2, sectionCtrlNo := some (formatCtrlNo rfu4a (some sI) dI 2),
                  sec := some sI, dateReceived := some dI }]
    nextRecordId := 3 }

/-- Records with section sequences `1, 2, 4, 5` (missing `3`). -/
def dbGap : DB :=
  { records := [1, 2, 4, 5].map (fun k =>
      { id := k, sectionCtrlNo := some (formatCtrlNo rfu4a (some sI) dI k),
        sec := some sI, dateReceived := some dI })
    nextRecordId := 6 }

/-- A single record whose control numbers are about to be overwritten. -/
def rUpd : RecordRow :=
  { id := 1,
    mcCtrlNo := some (formatCtrlNo rfu4a none dI 1),
    sectionCtrlNo := some (formatCtrlNo rfu4a (some sI) dI 1),
    sec := some sI, dateReceived := some dI }

def dbUpd : DB := { records := [rUpd], nextRecordId := 2 }

/-- A single record to be deleted by the `DELETE /records/:id` handler. -/
def rDel : RecordRow := { id := 7, sec := some sI, dateReceived := some dI }

def dbDel : DB := { records := [rDel], nextRecordId := 8 }

/-- An update payload that does supply control-number fields. -/
def payloadOverwrite : Payload :=
  { mcCtrlNo := some ("TAMPERED-MC".toList),
    sectionCtrlNo := some ("TAMPERED-SEC".toList) }

/-- Two single-record creations in different sections sharing one date,
followed by a manual counter reset for the first section: the state of the
C1 counterexample. -/
def dbTwoSections : DB :=
  (resetCountersForSection
    ((allocateAndCreate ((allocateAndCreate ({} : DB) sI dI {} tNow).2) sX dI {} tNow).2)
    (some sI) (some dI)).2
/-! ### Facts about digits, decimal rendering and the extractors -/

theorem digitChar_isDigit {d : Nat} (h : d < 10) : (Nat.digitChar d).isDigit = true := by
  interval_cases d <;> decide

theorem charToDigit_digitChar {d : Nat} (h : d < 10) : charToDigit (Nat.digitChar d) = d := by
  interval_cases d <;> decide

theorem digitsFuel_eq (f : Nat) : ∀ n, n ≤ f → digitsFuel f n = Nat.digits 10 n := by
  induction f with
  | zero =>
      intro n hn
      interval_cases n
      simp [digitsFuel]
  | succ f ih =>
      intro n hn
      by_cases h0 : n = 0
      · subst h0
        simp [digitsFuel]
      · rw [show digitsFuel (f + 1) n = n % 10 :: digitsFuel f (n / 10) by
          simp [digitsFuel, h0]]
        have h1 : n / 10 < n := Nat.div_lt_self (Nat.pos_of_ne_zero h0) (by norm_num)
        rw [ih (n / 10) (by omega)]
        rw [Nat.digits_def' (by norm_num : 1 < 10) (Nat.pos_of_ne_zero h0)]

theorem decRepr_eq (n : Nat) :
    decRepr n = if n = 0 then ['0'] else ((Nat.digits 10 n).map Nat.digitChar).reverse := by
  unfold decRepr
  by_cases h : n = 0
  · simp [h]
  · simp [h, digitsFuel_eq n n (le_refl n)]

theorem decRepr_all_digit (n : Nat) : ∀ c ∈ decRepr n, c.isDigit = true := by
  intro c hc
  rw [decRepr_eq] at hc
  split at hc
  · simp at hc; subst hc; decide
  · simp only [List.mem_reverse, List.mem_map] at hc
    obtain ⟨d, hd, rfl⟩ := hc
    exact digitChar_isDigit (Nat.digits_lt_base (by norm_num) hd)

theorem decRepr_ne_nil (n : Nat) : decRepr n ≠ [] := by
  rw [decRepr_eq]
  split
  · simp
  · simp only [ne_eq, List.reverse_eq_nil_iff, List.map_eq_nil_iff]
    exact Nat.digits_ne_nil_iff_ne_zero.mpr (by assumption)

theorem ofDigits_replicate_zero (k : Nat) : Nat.ofDigits 10 (List.replicate k 0) = 0 := by
  induction k with
  | zero => simp [Nat.ofDigits]
  | succ k ih => simp [List.replicate, Nat.ofDigits, ih]

theorem map_eq_self_of {α : Type} (l : List α) (f : α → α) (h : ∀ x ∈ l, f x = x) :
    l.map f = l := by
  induction l with
  | nil => rfl
  | cons x t ih =>
      simp only [List.map_cons, h x (by simp), List.cons.injEq, true_and]
      exact ih (fun y hy => h y (by simp [hy]))

theorem parse_decRepr (n : Nat) :
    Nat.ofDigits 10 ((decRepr n).reverse.map charToDigit) = n := by
  rw [decRepr_eq]
  split
  · subst ‹n = 0›; decide
  · rw [List.reverse_reverse, List.map_map]
    have hmap : List.map (charToDigit ∘ Nat.digitChar) (Nat.digits 10 n) = Nat.digits 10 n :=
      map_eq_self_of _ _ (fun d hd => charToDigit_digitChar (Nat.digits_lt_base (by norm_num) hd))
    rw [hmap]
    exact Nat.ofDigits_digits 10 n

theorem padStart2_all_digit {s : Str} (h : ∀ c ∈ s, c.isDigit = true) :
    ∀ c ∈ padStart2 s, c.isDigit = true := by
  intro c hc
  unfold padStart2 at hc
  split at hc
  · rcases List.mem_append.mp hc with hz | hs
    · rw [List.eq_of_mem_replicate hz]; decide
    · exact h c hs
  · exact h c hc

theorem padStart2_ne_nil (s : Str) (h : s ≠ []) : padStart2 s ≠ [] := by
  unfold padStart2
  split
  · intro hc
    exact h (List.append_eq_nil.mp hc).2
  · exact h

theorem parse_padStart2_decRepr (n : Nat) :
    Nat.ofDigits 10 ((padStart2 (decRepr n)).reverse.map charToDigit) = n := by
  unfold padStart2
  split
  · rw [List.reverse_append, List.map_append, Nat.ofDigits_append, parse_decRepr]
    have hz : (List.replicate (2 - (decRepr n).length) '0').reverse.map charToDigit
        = List.replicate (2 - (decRepr n).length) 0 := by
      rw [List.reverse_replicate, List.map_replicate]; rfl
    rw [hz, ofDigits_replicate_zero]
    simp
  · exact parse_decRepr n

theorem takeWhile_digits_append {a : Str} (l : Str) (ha : ∀ c ∈ a, c.isDigit = true)
    (hl : ∀ c t, l = c :: t → c.isDigit = false) :
    (a ++ l).takeWhile Char.isDigit = a ∧ (a ++ l).dropWhile Char.isDigit = l := by
  induction a with
  | nil =>
      cases l with
      | nil => exact ⟨rfl, rfl⟩
      | cons c t =>
          have := hl c t rfl
          constructor
          · simp [List.takeWhile_cons, this]
          · simp [List.dropWhile_cons, this]
  | cons c a ih =>
      have hc := ha c (by simp)
      have ih' := ih (fun x hx => ha x (by simp [hx]))
      constructor
      · simp [List.takeWhile_cons, hc, ih'.1]
      · simp [List.dropWhile_cons, hc, ih'.2]

/-- Any string of the shape `B ++ "-" ++ digits` has its trailing sequence
recovered by the end-anchored single-group regex. -/
theorem extractSeq_append (B d2 : Str) (h2 : ∀ c ∈ d2, c.isDigit = true) (h2n : d2 ≠ []) :
    extractSeq (B ++ ['-'] ++ d2) = some (Nat.ofDigits 10 (d2.reverse.map charToDigit)) := by
  unfold extractSeq
  have hshape : (B ++ ['-'] ++ d2).reverse = d2.reverse ++ '-' :: B.reverse := by
    simp
  rw [hshape]
  have hdig : ∀ c ∈ d2.reverse, c.isDigit = true := fun c hc => h2 c (List.mem_reverse.mp hc)
  have hsplit := takeWhile_digits_append ('-' :: B.reverse) hdig
    (by intro c t hct; cases hct; decide)
  rw [hsplit.1, hsplit.2]
  have hne : (d2.reverse).isEmpty = false := by
    simp [List.isEmpty_iff, h2n]
  simp [hne]

/-- Any string of the shape `B ++ "-" ++ digits ++ "-" ++ digits` has its
trailing sequence recovered by the end-anchored two-group regex. -/
theorem extractPairSeq_append (B d1 d2 : Str)
    (h1 : ∀ c ∈ d1, c.isDigit = true) (h1n : d1 ≠ [])
    (h2 : ∀ c ∈ d2, c.isDigit = true) (h2n : d2 ≠ []) :
    extractPairSeq (B ++ ['-'] ++ d1 ++ ['-'] ++ d2)
      = some (Nat.ofDigits 10 (d2.reverse.map charToDigit)) := by
  unfold extractPairSeq
  have hshape : (B ++ ['-'] ++ d1 ++ ['-'] ++ d2).reverse
      = d2.reverse ++ '-' :: (d1.reverse ++ '-' :: B.reverse) := by
    simp
  rw [hshape]
  have hdig2 : ∀ c ∈ d2.reverse, c.isDigit = true := fun c hc => h2 c (List.mem_reverse.mp hc)
  have hsplit2 := takeWhile_digits_append ('-' :: (d1.reverse ++ '-' :: B.reverse)) hdig2
    (by intro c t hct; cases hct; decide)
  rw [hsplit2.1, hsplit2.2]
  have hne2 : (d2.reverse).isEmpty = false := by simp [List.isEmpty_iff, h2n]
  have hdig1 : ∀ c ∈ d1.reverse, c.isDigit = true := fun c hc => h1 c (List.mem_reverse.mp hc)
  have hsplit1 := takeWhile_digits_append ('-' :: B.reverse) hdig1
    (by intro c t hct; cases hct; decide)
  have hne1 : (d1.reverse).isEmpty = false := by simp [List.isEmpty_iff, h1n]
  simp [hne2, hsplit1.1, hsplit1.2, hne1]

/-- Any string of the shape `pfx ++ "-MC-" ++ digits ++ "-" ++ digits` has its
trailing sequence recovered by the end-anchored MC regex. -/
theorem extractMCSeq_append (pfx d1 d2 : Str)
    (h1 : ∀ c ∈ d1, c.isDigit = true) (h1n : d1 ≠ [])
    (h2 : ∀ c ∈ d2, c.isDigit = true) (h2n : d2 ≠ []) :
    extractMCSeq (pfx ++ ['-', 'M', 'C'] ++ ['-'] ++ d1 ++ ['-'] ++ d2)
      = some (Nat.ofDigits 10 (d2.reverse.map charToDigit)) := by
  unfold extractMCSeq
  have hshape : (pfx ++ ['-', 'M', 'C'] ++ ['-'] ++ d1 ++ ['-'] ++ d2).reverse
      = d2.reverse ++ '-' :: (d1.reverse ++ '-' :: 'C' :: 'M' :: '-' :: pfx.reverse) := by
    simp
  rw [hshape]
  have hdig2 : ∀ c ∈ d2.reverse, c.isDigit = true := fun c hc => h2 c (List.mem_reverse.mp hc)
  have hsplit2 := takeWhile_digits_append
    ('-' :: (d1.reverse ++ '-' :: 'C' :: 'M' :: '-' :: pfx.reverse)) hdig2
    (by intro c t hct; cases hct; decide)
  rw [hsplit2.1, hsplit2.2]
  have hne2 : (d2.reverse).isEmpty = false := by simp [List.isEmpty_iff, h2n]
  have hdig1 : ∀ c ∈ d1.reverse, c.isDigit = true := fun c hc => h1 c (List.mem_reverse.mp hc)
  have hsplit1 := takeWhile_digits_append ('-' :: 'C' :: 'M' :: '-' :: pfx.reverse) hdig1
    (by intro c t hct; cases hct; decide)
  have hne1 : (d1.reverse).isEmpty = false := by simp [List.isEmpty_iff, h1n]
  simp [hne2, hsplit1.1, hsplit1.2, hne1]

theorem isDigit_ne_dash {c : Char} (h : c.isDigit = true) : c ≠ '-' := by
  intro hc
  subst hc
  exact absurd h (by decide)

theorem shortDate_all_digit {d : Str} (hd : isIsoDate d = true) :
    (∀ c ∈ shortDate d, c.isDigit = true) ∧ shortDate d ≠ [] := by
  rcases d with _ | ⟨c0, _ | ⟨c1, _ | ⟨c2, _ | ⟨c3, _ | ⟨c4, _ | ⟨c5, _ | ⟨c6, _ | ⟨c7,
    _ | ⟨c8, _ | ⟨c9, _ | ⟨c10, rest⟩⟩⟩⟩⟩⟩⟩⟩⟩⟩⟩ <;>
    try exact Bool.noConfusion hd
  simp only [isIsoDate, Bool.and_eq_true, decide_eq_true_eq] at hd
  obtain ⟨⟨⟨⟨⟨⟨⟨⟨⟨h0, h1⟩, h2⟩, h3⟩, h4⟩, h5⟩, h6⟩, h7⟩, h8⟩, h9⟩ := hd
  subst h4
  subst h7
  have hfilter : shortDate [c0, c1, c2, c3, '-', c5, c6, '-', c8, c9]
      = [c2, c3, c5, c6, c8, c9] := by
    simp [shortDate, List.filter_cons, isDigit_ne_dash h0, isDigit_ne_dash h1,
      isDigit_ne_dash h2, isDigit_ne_dash h3, isDigit_ne_dash h5, isDigit_ne_dash h6,
      isDigit_ne_dash h8, isDigit_ne_dash h9]
  rw [hfilter]
  refine ⟨?_, by simp⟩
  intro c hc
  simp only [List.mem_cons, List.not_mem_nil, or_false] at hc
  rcases hc with rfl | rfl | rfl | rfl | rfl | rfl
  exacts [h2, h3, h5, h6, h8, h9]

theorem formatCtrlNo_ne_nil (pfx : Str) (sec : Option Str) (d : Str) (n : Nat) :
    formatCtrlNo pfx sec d n ≠ [] := by
  unfold formatCtrlNo
  intro h
  exact absurd (List.append_eq_nil.mp h).2 (padStart2_ne_nil _ (decRepr_ne_nil n))

/-- The single-group trailing regex recovers the sequence from any formatted
control number. -/
theorem extractSeq_format (pfx : Str) (sec : Option Str) (d : Str) (n : Nat) :
    extractSeq (formatCtrlNo pfx sec d n) = some n := by
  unfold formatCtrlNo
  rw [extractSeq_append _ _ (padStart2_all_digit (decRepr_all_digit n))
    (padStart2_ne_nil _ (decRepr_ne_nil n))]
  rw [parse_padStart2_decRepr]

/-- The two-group regex recovers the sequence from any formatted control
number, provided the date is well-formed. -/
theorem extractPairSeq_format (pfx : Str) (sec : Option Str) (d : Str) (n : Nat)
    (hd : isIsoDate d = true) :
    extractPairSeq (formatCtrlNo pfx sec d n) = some n := by
  obtain ⟨hdig, hne⟩ := shortDate_all_digit hd
  unfold formatCtrlNo
  rw [extractPairSeq_append _ _ _ hdig hne (padStart2_all_digit (decRepr_all_digit n))
    (padStart2_ne_nil _ (decRepr_ne_nil n))]
  rw [parse_padStart2_decRepr]

/-- The MC regex recovers the sequence from any formatted office-wide control
number, provided the date is well-formed. -/
theorem extractMCSeq_format (pfx : Str) (d : Str) (n : Nat) (hd : isIsoDate d = true) :
    extractMCSeq (formatCtrlNo pfx none d n) = some n := by
  obtain ⟨hdig, hne⟩ := shortDate_all_digit hd
  show extractMCSeq (pfx ++ ctrlSuffix none ++ ['-'] ++ shortDate d ++ ['-']
    ++ padStart2 (decRepr n)) = some n
  have hsfx : ctrlSuffix none = ['-', 'M', 'C'] := rfl
  rw [hsfx]
  rw [extractMCSeq_append _ _ _ hdig hne (padStart2_all_digit (decRepr_all_digit n))
    (padStart2_ne_nil _ (decRepr_ne_nil n))]
  rw [parse_padStart2_decRepr]

theorem isIsoDate_ne_nil {d : Str} (hd : isIsoDate d = true) : d ≠ [] := by
  intro h
  subst h
  exact Bool.noConfusion hd

/-! ### Lemmas about the partition scans under well-formed records -/

theorem partition_filter_all {s d : Str} (l : List RecordRow) (h : ∀ r ∈ l, WFrec s d r) :
    l.filter (fun r => sqlEq r.sec (some s) && sqlEq r.dateReceived (some d)) = l := by
  apply List.filter_eq_self.mpr
  intro r hr
  obtain ⟨h1, h2, -, -⟩ := h r hr
  simp [sqlEq, h1, h2]

theorem partitionRecords_all {s d : Str} (db : DB) (h : ∀ r ∈ db.records, WFrec s d r) :
    partitionRecords db (some s) (some d) = db.records :=
  partition_filter_all db.records h

theorem foldl_rhStep_pair (l : List RecordRow) (a b : Nat) :
    l.foldl rhStep (a, b) = (l.foldl rhMC a, l.foldl rhSec b) := by
  induction l generalizing a b with
  | nil => rfl
  | cons r t ih => simp [List.foldl_cons, rhStep, ih]

theorem rhMC_fmt {d : Str} (hd : isIsoDate d = true) (acc : Nat) (r : RecordRow) (k : Nat)
    (h : r.mcCtrlNo = some (formatCtrlNo rfu4a none d k)) :
    rhMC acc r = if k > acc then k else acc := by
  unfold rhMC
  rw [h]
  have hne : (formatCtrlNo rfu4a none d k).isEmpty = false := by
    simp [List.isEmpty_iff, formatCtrlNo_ne_nil]
  simp [hne, extractMCSeq_format rfu4a d k hd]

theorem rhSec_fmt {s d : Str} (hd : isIsoDate d = true) (acc : Nat) (r : RecordRow) (m : Nat)
    (h : r.sectionCtrlNo = some (formatCtrlNo rfu4a (some s) d m)) :
    rhSec acc r = if m > acc then m else acc := by
  unfold rhSec
  rw [h]
  have hne : (formatCtrlNo rfu4a (some s) d m).isEmpty = false := by
    simp [List.isEmpty_iff, formatCtrlNo_ne_nil]
  simp [hne, extractPairSeq_format rfu4a (some s) d m hd]

theorem haStepSec_fmt {s d : Str} (acc : Nat) (r : RecordRow) (m : Nat)
    (h : r.sectionCtrlNo = some (formatCtrlNo rfu4a (some s) d m)) :
    haStep Scope.SECTION acc r = if m > acc then m else acc := by
  unfold haStep
  rw [show (if Scope.SECTION = Scope.MC then r.mcCtrlNo else r.sectionCtrlNo)
      = r.sectionCtrlNo by rfl]
  rw [h]
  have hne : (formatCtrlNo rfu4a (some s) d m).isEmpty = false := by
    simp [List.isEmpty_iff, formatCtrlNo_ne_nil]
  simp [hne, extractSeq_format rfu4a (some s) d m]

theorem foldl_haSec_eq_rhSec {s d : Str} (hd : isIsoDate d = true) (l : List RecordRow)
    (h : ∀ r ∈ l, WFrec s d r) : ∀ a, l.foldl (haStep Scope.SECTION) a = l.foldl rhSec a := by
  induction l with
  | nil => intro a; rfl
  | cons r t ih =>
      intro a
      obtain ⟨-, -, -, m, hm⟩ := h r (by simp)
      rw [List.foldl_cons, List.foldl_cons, haStepSec_fmt a r m hm, rhSec_fmt hd a r m hm]
      exact ih (fun x hx => h x (by simp [hx])) _

theorem highestActual_eq_resetHighest_snd {s d : Str} (hd : isIsoDate d = true)
    (l : List RecordRow) (h : ∀ r ∈ l, WFrec s d r) :
    highestActual Scope.SECTION l = (resetHighest l).2 := by
  unfold highestActual resetHighest
  rw [foldl_haSec_eq_rhSec hd l h 0, foldl_rhStep_pair]

theorem resetHighest_append (l : List RecordRow) (r : RecordRow) :
    resetHighest (l ++ [r]) = rhStep (resetHighest l) r := by
  unfold resetHighest
  rw [List.foldl_append]
  rfl

/-! ### The three paths of `getNextCounter` -/

theorem getNextCounter_insert {db : DB} {scope : Scope} {sec dateReceived : Option Str}
    (hfind : findCounter db scope sec = none) :
    getNextCounter db scope sec dateReceived =
      (1, { db with
              counters := db.counters ++
                [⟨db.nextCounterId, scope, sec, 1, jsOrNull dateReceived⟩],
              nextCounterId := db.nextCounterId + 1 }) := by
  unfold getNextCounter
  rw [hfind]

theorem getNextCounter_fall {db : DB} {scope : Scope} {sec : Option Str} {d : Str}
    {c : CounterRow} (hfind : findCounter db scope sec = some c)
    (hlast : c.lastDateUsed = some d) (hde : d.isEmpty = false)
    (hnoheal : (jsTruthy sec &&
      decide (c.currentNumber >
        highestActual scope (partitionRecords db sec (some d)))) = false) :
    getNextCounter db scope sec (some d) =
      (c.currentNumber + 1,
       updateCounterById db c.id (fun x =>
         { x with currentNumber := c.currentNumber + 1, lastDateUsed := some d })) := by
  unfold getNextCounter
  rw [hfind]
  have h1 : jsTruthy (some d) = true := by simp [jsTruthy, hde]
  have h2 : decide (c.lastDateUsed ≠ some d) = false := by simp [hlast]
  simp only [h1, h2, Bool.and_false, Bool.not_false, Bool.true_and]
  simp only [Bool.true_and, hnoheal, Bool.false_eq_true, if_false]
  simp [jsOr, h1]
  intro hsec hlt
  exfalso
  rw [hsec, Bool.true_and] at hnoheal
  simp only [decide_eq_false_iff_not] at hnoheal
  exact hnoheal hlt

theorem getNextCounter_heal {db : DB} {scope : Scope} {sec : Option Str} {d : Str}
    {c : CounterRow} (hfind : findCounter db scope sec = some c)
    (hlast : c.lastDateUsed = some d) (hde : d.isEmpty = false)
    (hsec : jsTruthy sec = true)
    (hheal : c.currentNumber > highestActual scope (partitionRecords db sec (some d))) :
    getNextCounter db scope sec (some d) =
      (highestActual scope (partitionRecords db sec (some d)) + 1,
       updateCounterById db c.id (fun x =>
         { x with currentNumber := highestActual scope (partitionRecords db sec (some d)) })) := by
  unfold getNextCounter
  rw [hfind]
  have h1 : jsTruthy (some d) = true := by simp [jsTruthy, hde]
  have h2 : decide (c.lastDateUsed ≠ some d) = false := by simp [hlast]
  simp only [h1, h2, Bool.and_false, Bool.not_false, Bool.true_and, Bool.and_true, hsec,
    decide_eq_true_eq]
  rw [if_pos hheal]

/-! ### Single-partition invariant preservation -/

theorem allocateAndCreate_stepB {s d : Str} (p : Payload) (now : Str)
    (hs : s ≠ []) (hd : isIsoDate d = true) (db : DB) (M S : Nat)
    (h : InvB s d M S db) :
    (allocateAndCreate db s d p now).1 = (M + 1, S + 1) ∧
      InvB s d (M + 1) (S + 1) (allocateAndCreate db s d p now).2 := by
  obtain ⟨⟨i1, i2, hne, hcnt⟩, hwf, hrh⟩ := h
  have hde : d.isEmpty = false := by
    cases d with
    | nil => exact Bool.noConfusion hd
    | cons a t => rfl
  have hfind1 : findCounter db Scope.MC none
      = some ⟨i1, Scope.MC, none, M, some d⟩ := by
    simp [findCounter, hcnt, List.find?]
  have halloc1 := getNextCounter_fall hfind1 rfl hde rfl
  have hdb1 : updateCounterById db i1 (fun x =>
      { x with currentNumber := M + 1, lastDateUsed := some d })
      = { db with counters := [⟨i1, Scope.MC, none, M + 1, some d⟩,
                               ⟨i2, Scope.SECTION, some s, S, some d⟩] } := by
    simp [updateCounterById, hcnt, Ne.symm hne]
  have hfind2 : findCounter
      ({ db with counters := [⟨i1, Scope.MC, none, M + 1, some d⟩,
                              ⟨i2, Scope.SECTION, some s, S, some d⟩] } : DB)
      Scope.SECTION (some s)
      = some ⟨i2, Scope.SECTION, some s, S, some d⟩ := by
    simp [findCounter, List.find?]
  have hnoheal2 : (jsTruthy (some s) && decide
      (S > highestActual Scope.SECTION (partitionRecords
        ({ db with counters := [⟨i1, Scope.MC, none, M + 1, some d⟩,
                                ⟨i2, Scope.SECTION, some s, S, some d⟩] } : DB)
        (some s) (some d)))) = false := by
    have hpart : partitionRecords
        ({ db with counters := [⟨i1, Scope.MC, none, M + 1, some d⟩,
                                ⟨i2, Scope.SECTION, some s, S, some d⟩] } : DB)
        (some s) (some d) = db.records := partitionRecords_all _ hwf
    rw [hpart, highestActual_eq_resetHighest_snd hd _ hwf, hrh]
    simp
  have halloc2 := getNextCounter_fall hfind2 rfl hde hnoheal2
  have hdb2 : updateCounterById
      ({ db with counters := [⟨i1, Scope.MC, none, M + 1, some d⟩,
                              ⟨i2, Scope.SECTION, some s, S, some d⟩] } : DB)
      i2 (fun x => { x with currentNumber := S + 1, lastDateUsed := some d })
      = { db with counters := [⟨i1, Scope.MC, none, M + 1, some d⟩,
                               ⟨i2, Scope.SECTION, some s, S + 1, some d⟩] } := by
    simp [updateCounterById, hne]
  have hfinal : allocateAndCreate db s d p now
      = ((M + 1, S + 1),
         { db with
             counters := [⟨i1, Scope.MC, none, M + 1, some d⟩,
                          ⟨i2, Scope.SECTION, some s, S + 1, some d⟩],
             records := db.records ++
               [{ id := db.nextRecordId
                  mcCtrlNo := some (formatCtrlNo rfu4a none d (M + 1))
                  sectionCtrlNo := some (formatCtrlNo rfu4a (some s) d (S + 1))
                  sec := some s
                  dateReceived := some d
                  subjectText := p.subjectText
                  subjectFileUrl := jsOrNull p.subjectFileUrl
                  fromValue := p.fromValue
                  fromType := p.fromType
                  targetDate := p.targetDate
                  targetDateMode := p.targetDateMode
                  receivedBy := p.receivedBy
                  actionTaken := p.actionTaken
                  remarks := p.remarks
                  concernedUnits := p.concernedUnits
                  dateSent := p.dateSent
                  createdBy := jsOr p.createdBy p.username
                  updatedBy := jsOr p.updatedBy p.username
                  createdAt := some now
                  updatedAt := some now }],
             nextRecordId := db.nextRecordId + 1 }) := by
    unfold allocateAndCreate
    simp only [halloc1, hdb1]
    simp only [halloc2, hdb2]
    simp only [createRecord]
  rw [hfinal]
  refine ⟨rfl, ⟨i1, i2, hne, rfl⟩, ?_, ?_⟩
  · intro r hr
    rcases List.mem_append.mp hr with hold | hnew
    · exact hwf r hold
    · rw [List.mem_singleton.mp hnew]
      exact ⟨rfl, rfl, ⟨M + 1, rfl⟩, ⟨S + 1, rfl⟩⟩
  · rw [resetHighest_append, hrh]
    unfold rhStep
    rw [rhMC_fmt hd M _ (M + 1) rfl, rhSec_fmt hd S _ (S + 1) rfl]
    simp

theorem allocateAndCreate_stepA {s d : Str} (p : Payload) (now : Str)
    (hd : isIsoDate d = true) (db : DB)
    (hc : db.counters = []) (hr : db.records = []) :
    (allocateAndCreate db s d p now).1 = (1, 1) ∧
      InvB s d 1 1 (allocateAndCreate db s d p now).2 := by
  have hde : d.isEmpty = false := by
    cases d with
    | nil => exact Bool.noConfusion hd
    | cons a t => rfl
  have hjs : jsOrNull (some d) = some d := by
    simp [jsOrNull, jsTruthy, hde]
  have hfind1 : findCounter db Scope.MC none = none := by
    simp [findCounter, hc]
  have halloc1 : getNextCounter db Scope.MC none (some d)
      = (1, { db with
                counters := [⟨db.nextCounterId, Scope.MC, none, 1, some d⟩],
                nextCounterId := db.nextCounterId + 1 }) := by
    rw [getNextCounter_insert hfind1, hjs, hc]
    rfl
  have hfind2 : findCounter
      ({ db with
           counters := [⟨db.nextCounterId, Scope.MC, none, 1, some d⟩],
           nextCounterId := db.nextCounterId + 1 } : DB)
      Scope.SECTION (some s) = none := by
    simp [findCounter, List.find?]
  have halloc2 : getNextCounter
      ({ db with
           counters := [⟨db.nextCounterId, Scope.MC, none, 1, some d⟩],
           nextCounterId := db.nextCounterId + 1 } : DB)
      Scope.SECTION (some s) (some d)
      = (1, { db with
                counters := [⟨db.nextCounterId, Scope.MC, none, 1, some d⟩,
                             ⟨db.nextCounterId + 1, Scope.SECTION, some s, 1, some d⟩],
                nextCounterId := db.nextCounterId + 2 }) := by
    rw [getNextCounter_insert hfind2, hjs]
    rfl
  have hfinal : allocateAndCreate db s d p now
      = ((1, 1),
         { db with
             counters := [⟨db.nextCounterId, Scope.MC, none, 1, some d⟩,
                          ⟨db.nextCounterId + 1, Scope.SECTION, some s, 1, some d⟩],
             records := db.records ++
               [{ id := db.nextRecordId
                  mcCtrlNo := some (formatCtrlNo rfu4a none d 1)
                  sectionCtrlNo := some (formatCtrlNo rfu4a (some s) d 1)
                  sec := some s
                  dateReceived := some d
                  subjectText := p.subjectText
                  subjectFileUrl := jsOrNull p.subjectFileUrl
                  fromValue := p.fromValue
                  fromType := p.fromType
                  targetDate := p.targetDate
                  targetDateMode := p.targetDateMode
                  receivedBy := p.receivedBy
                  actionTaken := p.actionTaken
                  remarks := p.remarks
                  concernedUnits := p.concernedUnits
                  dateSent := p.dateSent
                  createdBy := jsOr p.createdBy p.username
                  updatedBy := jsOr p.updatedBy p.username
                  createdAt := some now
                  updatedAt := some now }],
             nextRecordId := db.nextRecordId + 1,
             nextCounterId := db.nextCounterId + 2 }) := by
    unfold allocateAndCreate
    simp only [halloc1]
    simp only [halloc2]
    simp only [createRecord]
  rw [hfinal]
  refine ⟨rfl, ⟨db.nextCounterId, db.nextCounterId + 1, by omega, rfl⟩, ?_, ?_⟩
  · intro r hrm
    rw [hr] at hrm
    simp only [List.nil_append, List.mem_singleton] at hrm
    subst hrm
    exact ⟨rfl, rfl, ⟨1, rfl⟩, ⟨1, rfl⟩⟩
  · rw [hr]
    show resetHighest ([] ++ [_]) = (1, 1)
    rw [resetHighest_append]
    unfold rhStep
    rw [rhMC_fmt hd _ _ 1 rfl, rhSec_fmt hd _ _ 1 rfl]
    simp [resetHighest]

theorem reset_establishes {s d : Str} (db : DB) (i1 i2 M0 S0 : Nat)
    (hcnt : db.counters = [⟨i1, Scope.MC, none, M0, some d⟩,
                           ⟨i2, Scope.SECTION, some s, S0, some d⟩])
    (hwf : ∀ r ∈ db.records, WFrec s d r) :
    resetCountersForSection db (some s) (some d)
      = (resetHighest db.records,
         { db with
             counters := [⟨i1, Scope.MC, none, (resetHighest db.records).1, some d⟩,
                          ⟨i2, Scope.SECTION, some s, (resetHighest db.records).2, some d⟩] }) := by
  unfold resetCountersForSection
  rw [partitionRecords_all db hwf, hcnt]
  simp [sqlEq]

theorem reset_invB {s d : Str} (db : DB) (i1 i2 M0 S0 : Nat) (hne : i1 ≠ i2)
    (hcnt : db.counters = [⟨i1, Scope.MC, none, M0, some d⟩,
                           ⟨i2, Scope.SECTION, some s, S0, some d⟩])
    (hwf : ∀ r ∈ db.records, WFrec s d r) :
    InvB s d (resetHighest db.records).1 (resetHighest db.records).2
      (resetCountersForSection db (some s) (some d)).2 := by
  rw [reset_establishes db i1 i2 M0 S0 hcnt hwf]
  exact ⟨⟨i1, i2, hne, rfl⟩, hwf, rfl⟩

theorem runPartitionOp_preserves {s d : Str} (p : Payload) (now : Str)
    (hs : s ≠ []) (hd : isIsoDate d = true) (db : DB) (op : PartitionOp)
    (h : CounterInv s d db) : CounterInv s d (runPartitionOp s d p now db op) := by
  cases op with
  | createRec =>
      rcases h with ⟨hc, hr⟩ | ⟨M, S, hB⟩
      · exact Or.inr ⟨1, 1, (allocateAndCreate_stepA p now hd db hc hr).2⟩
      · exact Or.inr ⟨M + 1, S + 1, (allocateAndCreate_stepB p now hs hd db M S hB).2⟩
  | resetOp =>
      rcases h with ⟨hc, hr⟩ | ⟨M, S, ⟨i1, i2, hne, hcnt⟩, hwf, hrh⟩
      · left
        show ((resetCountersForSection db (some s) (some d)).2.counters = [] ∧
          (resetCountersForSection db (some s) (some d)).2.records = [])
        unfold resetCountersForSection
        rw [hc]
        exact ⟨rfl, hr⟩
      · exact Or.inr ⟨_, _, reset_invB db i1 i2 M S hne hcnt hwf⟩
  | deleteOp rid =>
      rcases h with ⟨hc, hr⟩ | ⟨M, S, ⟨i1, i2, hne, hcnt⟩, hwf, hrh⟩
      · left
        show ((deleteRecordHandler db rid none).2.counters = [] ∧
          (deleteRecordHandler db rid none).2.records = [])
        have hget : getRecord db rid = none := by
          unfold getRecord
          rw [hr]
          rfl
        unfold deleteRecordHandler
        rw [hget]
        exact ⟨hc, hr⟩
      · cases hget : getRecord db rid with
        | none =>
            have hsame : (deleteRecordHandler db rid none).2 = db := by
              unfold deleteRecordHandler
              rw [hget]
            show CounterInv s d (deleteRecordHandler db rid none).2
            rw [hsame]
            exact Or.inr ⟨M, S, ⟨i1, i2, hne, hcnt⟩, hwf, hrh⟩
        | some record =>
            have hmem : record ∈ db.records := List.mem_of_find?_eq_some hget
            obtain ⟨hsec, hdate, -, -⟩ := hwf record hmem
            have hwf1 : ∀ r ∈ (deleteRecord db rid).records, WFrec s d r := by
              intro r hrm
              exact hwf r (List.mem_of_mem_filter hrm)
            have hcnt1 : (deleteRecord db rid).counters
                = [⟨i1, Scope.MC, none, M, some d⟩,
                   ⟨i2, Scope.SECTION, some s, S, some d⟩] := hcnt
            have hfinal : (deleteRecordHandler db rid none).2
                = (resetCountersForSection (deleteRecord db rid) (some s) (some d)).2 := by
              unfold deleteRecordHandler
              simp only [hget, hsec, hdate]
            show CounterInv s d (deleteRecordHandler db rid none).2
            rw [hfinal]
            exact Or.inr ⟨_, _, reset_invB (deleteRecord db rid) i1 i2 M S hne hcnt1 hwf1⟩

theorem CounterInv_runPartitionOps {s d : Str} (p : Payload) (now : Str)
    (hs : s ≠ []) (hd : isIsoDate d = true) (ops : List PartitionOp) :
    CounterInv s d (runPartitionOps s d p now ops) := by
  suffices h : ∀ db, CounterInv s d db →
      CounterInv s d (ops.foldl (runPartitionOp s d p now) db) from
    h {} (Or.inl ⟨rfl, rfl⟩)
  induction ops with
  | nil => exact fun db h => h
  | cons op t ih =>
      intro db h
      exact ih _ (runPartitionOp_preserves p now hs hd db op h)

theorem allocateCreateRun_spec {s d : Str} (p : Payload) (now : Str)
    (hs : s ≠ []) (hd : isIsoDate d = true) (N : Nat) :
    (allocateCreateRun s d p now N).1 = (List.range N).map (fun i => (i + 1, i + 1)) ∧
      (N = 0 ∧ (allocateCreateRun s d p now N).2.counters = []
         ∧ (allocateCreateRun s d p now N).2.records = []
       ∨ InvB s d N N (allocateCreateRun s d p now N).2) := by
  induction N with
  | zero => exact ⟨rfl, Or.inl ⟨rfl, rfl, rfl⟩⟩
  | succ n ih =>
      obtain ⟨hseq, hstate⟩ := ih
      have hrun1 : (allocateCreateRun s d p now (n + 1)).1
          = (allocateCreateRun s d p now n).1
            ++ [(allocateAndCreate (allocateCreateRun s d p now n).2 s d p now).1] := rfl
      have hrun2 : (allocateCreateRun s d p now (n + 1)).2
          = (allocateAndCreate (allocateCreateRun s d p now n).2 s d p now).2 := rfl
      rcases hstate with ⟨hn0, hc, hr⟩ | hB
      · subst hn0
        have hstep := allocateAndCreate_stepA (s := s) p now hd _ hc hr
        refine ⟨?_, Or.inr ?_⟩
        · rw [hrun1, hseq, hstep.1]
          rfl
        · rw [hrun2]
          exact hstep.2
      · have hstep := allocateAndCreate_stepB p now hs hd _ n n hB
        refine ⟨?_, Or.inr ?_⟩
        · rw [hrun1, hseq, hstep.1]
          rw [List.range_succ, List.map_append]
          rfl
        · rw [hrun2]
          exact hstep.2

/-! ### Claim theorems -/

/-- C10: format/parse round-trip — for every positive sequence `n`, every
section code or `null`, and every `YYYY-MM-DD` date string, extracting the
trailing numeric suffix (as the allocator's self-healing does) from
`formatCtrlNo(prefix, section, date, n)` and parsing it as a base-10 integer
yields exactly `n`; two-digit zero-padding never loses or truncates the
sequence. -/
theorem c10_format_extract_roundtrip (pfx : Str) (sec : Option Str) (d : Str) (n : Nat)
    (hn : 1 ≤ n) (hd : isIsoDate d = true) :
    extractSeq (formatCtrlNo pfx sec d n) = some n :=
  extractSeq_format pfx sec d n

theorem c10_format_extract_roundtrip_witness :
    1 ≤ 7 ∧ isIsoDate dI = true ∧
      extractSeq (formatCtrlNo rfu4a (some sI) dI 7) = some 7 :=
  ⟨by decide, by decide, c10_format_extract_roundtrip rfu4a (some sI) dI 7 (by decide) (by decide)⟩

/-- C2: at the failing input (stale counter `5`, actual maximum `3`), the
sqlite branch of `getNextCounter` returns `4` but persists
`currentNumber = 3` — not `next = 4` as the claim (and the postgres branch,
shown alongside) require. -/
theorem c2_sqlite_selfheal_persists_highestActual :
    (getNextCounter dbStale Scope.SECTION (some sI) (some dI)).1 = 4 ∧
    (getNextCounter dbStale Scope.SECTION (some sI) (some dI)).2.counters
      = [⟨1, Scope.SECTION, some sI, 3, some dI⟩] ∧
    (getNextCounterPg dbStale Scope.SECTION (some sI) (some dI)).1 = 4 ∧
    (getNextCounterPg dbStale Scope.SECTION (some sI) (some dI)).2.counters
      = [⟨1, Scope.SECTION, some sI, 4, some dI⟩] := by
  refine ⟨by decide, by decide, by decide, by decide⟩

/-- C3 counterexample: two sequential SECTION-scope `getNextCounter` calls on
an empty partition, with no other state change in between, return `(1, 1)` —
not `(1, 2)` as the claim states: the self-healing scan sees no records and
resets the counter before every call after the first. -/
theorem c3_bare_allocation_counterexample :
    ((getNextCounter ({} : DB) Scope.SECTION (some sI) (some dI)).1,
     (getNextCounter (getNextCounter ({} : DB) Scope.SECTION (some sI) (some dI)).2
        Scope.SECTION (some sI) (some dI)).1) = (1, 1) ∧
    ((1 : Nat), (1 : Nat)) ≠ ((1 : Nat), (2 : Nat)) := by
  refine ⟨by decide, by decide⟩

/-- C3 (amended): starting from a state with no counter row and no records,
`N` sequential allocations return exactly `1, 2, ..., N` — for both scopes —
provided each allocation is immediately followed by persisting the record
embedding the returned sequence numbers (the creation pipeline of
`POST /records`); bare SECTION-scope calls instead return `1` every time. -/
theorem c3_sequential_allocation_with_records {s d : Str} (p : Payload) (now : Str)
    (hs : s ≠ []) (hd : isIsoDate d = true) (N : Nat) :
    (allocateCreateRun s d p now N).1 = (List.range N).map (fun i => (i + 1, i + 1)) :=
  (allocateCreateRun_spec p now hs hd N).1

theorem c3_sequential_allocation_with_records_witness :
    sI ≠ [] ∧ isIsoDate dI = true ∧
      (allocateCreateRun sI dI {} tNow 3).1 = [(1, 1), (2, 2), (3, 3)] := by
  refine ⟨by decide, by decide, ?_⟩
  rw [c3_sequential_allocation_with_records {} tNow (by decide) (by decide) 3]
  rfl

/-- C6: at the failing input (two records, ids `1` and `2`, sharing one
literal `sectionControlNumber`), `validateControlNumbers` reports exactly one
duplicate entry of type SECTION — but the entry carries only the second
record's id (`recordId = 2`), not the list of both ids as the claim (and the
repository's own documentation, which shows `ids: [123, 456]`) require. -/
theorem c6_duplicate_entry_reports_second_id_only :
    (validateControlNumbers dbDup (some sI) (some dI)).duplicates
      = [⟨Scope.SECTION, formatCtrlNo rfu4a (some sI) dI 2, 2⟩] ∧
    ((validateControlNumbers dbDup (some sI) (some dI)).duplicates.map DupEntry.recordId)
      = [2] ∧
    (1 : Nat) ∉ ((validateControlNumbers dbDup (some sI) (some dI)).duplicates.map
      DupEntry.recordId) := by
  refine ⟨by decide, by decide, by decide⟩

/-- C7: at the failing input (section sequences `1, 2, 4, 5`),
`validateControlNumbers` reports exactly one issue and `hasProblems = true`,
but the issue's message is the literal text
`"Missing control number sequence: 3"` — the fully-formatted control number
reconstructed via the Formatter (`RFU4A-INVES-260218-03`) does not occur in
it, contrary to the claim (and to the repository's own documentation, which
shows `"... control number missing: RFU4A-..."` messages). -/
theorem c7_gap_issue_reports_raw_sequence :
    (validateControlNumbers dbGap (some sI) (some dI)).issues
      = [⟨Scope.SECTION, missingMsg 3⟩] ∧
    (validateControlNumbers dbGap (some sI) (some dI)).hasProblems = true ∧
    ¬ (formatCtrlNo rfu4a (some sI) dI 3 <:+: missingMsg 3) := by
  refine ⟨by decide, by decide, by decide⟩

/-- C8 counterexample: an update payload that supplies `mcCtrlNo` overwrites
the stored control number — `updateRecord` does not leave the field equal to
its previous value for every payload. -/
theorem c8_update_overwrites_counterexample :
    ((updateRecord dbUpd 1 payloadOverwrite tNow).1.map RecordRow.mcCtrlNo)
      = some (some ("TAMPERED-MC".toList)) ∧
    (getRecord dbUpd 1).map RecordRow.mcCtrlNo
      = some (some (formatCtrlNo rfu4a none dI 1)) ∧
    (some ("TAMPERED-MC".toList) : Option Str) ≠ some (formatCtrlNo rfu4a none dI 1) := by
  refine ⟨by decide, by decide, by decide⟩

/-- C4: self-healing on a stale counter — whenever the `(SECTION, s)` counter
row holds `currentNumber = 5` with `lastDateUsed = d`, and the stored records
of the `(s, d)` partition embed section-scope sequence numbers with maximum
`3`, the next `getNextCounter` call for `(SECTION, s, d)` returns `4`, not
`6`. -/
theorem c4_selfheal_stale_counter_returns_four (db : DB) (s d : Str) (c : CounterRow)
    (hs : s ≠ []) (hdd : d ≠ [])
    (hfind : findCounter db Scope.SECTION (some s) = some c)
    (hcur : c.currentNumber = 5) (hlast : c.lastDateUsed = some d)
    (hmax : highestActual Scope.SECTION (partitionRecords db (some s) (some d)) = 3) :
    (getNextCounter db Scope.SECTION (some s) (some d)).1 = 4 := by
  have hde : d.isEmpty = false := by
    cases d with
    | nil => exact absurd rfl hdd
    | cons a t => rfl
  have hse : s.isEmpty = false := by
    cases s with
    | nil => exact absurd rfl hs
    | cons a t => rfl
  have hjsec : jsTruthy (some s) = true := by simp [jsTruthy, hse]
  have h := getNextCounter_heal hfind hlast hde hjsec (by rw [hcur, hmax]; omega)
  rw [h]
  simp [hmax]

theorem c4_selfheal_stale_counter_returns_four_witness :
    sI ≠ [] ∧ dI ≠ [] ∧
      (getNextCounter dbStale Scope.SECTION (some sI) (some dI)).1 = 4 :=
  ⟨by decide, by decide,
   c4_selfheal_stale_counter_returns_four dbStale sI dI
     ⟨1, Scope.SECTION, some sI, 5, some dI⟩
     (by decide) (by decide) (by decide) rfl rfl (by decide)⟩

/-- C5 counterexample: with a stale counter (`currentNumber = 5`, actual
maximum `3` for the same date), `getNextCounterPreview` returns `6` while
`getNextCounter` returns `4` — the preview does not share the self-healing
reconciliation, so peek and allocate disagree. -/
theorem c5_preview_disagrees_counterexample :
    getNextCounterPreview dbStale Scope.SECTION (some sI) (some dI) = 6 ∧
    (getNextCounter dbStale Scope.SECTION (some sI) (some dI)).1 = 4 ∧
    (6 : Nat) ≠ 4 := by
  refine ⟨by decide, by decide, by decide⟩

/-- C5 (amended): `getNextCounterPreview` performs no writes — its state is
returned unchanged — and it returns the same sequence number that
`getNextCounter` would return from the same state whenever the allocate call
would not enter the self-healing branch (counter absent, date rollover, falsy
section or date, or stored `currentNumber` not above the actual maximum);
when self-healing would fire, the two disagree. -/
theorem c5_preview_agrees_without_selfheal (db : DB) (scope : Scope)
    (sec dateReceived : Option Str)
    (h : healWouldFire db scope sec dateReceived = false) :
    getNextCounterPreviewSt db scope sec dateReceived
      = ((getNextCounter db scope sec dateReceived).1, db) := by
  unfold healWouldFire at h
  unfold getNextCounterPreviewSt peekNextCounter getNextCounter
  cases hfc : findCounter db scope sec with
  | none => simp [hfc]
  | some e =>
      rw [hfc] at h
      have h' : (!(jsTruthy dateReceived && decide (e.lastDateUsed ≠ dateReceived))
          && jsTruthy sec && jsTruthy dateReceived
          && decide (e.currentNumber >
              highestActual scope (partitionRecords db sec dateReceived))) = false := h
      simp only [hfc]
      simp only [h', Bool.false_eq_true, if_false]

theorem c5_preview_agrees_without_selfheal_witness :
    healWouldFire dbGap Scope.SECTION (some sI) (some dI) = false ∧
      getNextCounterPreviewSt dbGap Scope.SECTION (some sI) (some dI)
        = ((getNextCounter dbGap Scope.SECTION (some sI) (some dI)).1, dbGap) :=
  ⟨by decide,
   c5_preview_agrees_without_selfheal dbGap Scope.SECTION (some sI) (some dI) (by decide)⟩

theorem find?_update_map (l : List RecordRow) (rid : Nat) (current upd : RecordRow)
    (hfind : l.find? (fun r => decide (r.id = rid)) = some current)
    (hid : upd.id = current.id) :
    (l.map (fun r => if r.id = rid then upd else r)).find? (fun r => decide (r.id = rid))
      = some upd := by
  induction l with
  | nil => exact Option.noConfusion hfind
  | cons a t ih =>
      rw [List.map_cons]
      by_cases ha : a.id = rid
      · have hcur : a = current := by
          rw [List.find?_cons_of_pos _ (by simpa using ha)] at hfind
          exact Option.some.inj hfind
        have hupd : upd.id = rid := by rw [hid, ← hcur, ha]
        rw [if_pos ha]
        exact List.find?_cons_of_pos _ (by simpa using hupd)
      · rw [if_neg ha]
        rw [List.find?_cons_of_neg _ (by simpa using ha)] at hfind
        rw [List.find?_cons_of_neg _ (by simpa using ha)]
        exact ih hfind

/-- C8 (amended): `updateRecord` (and the `PUT /records/:id` handler built on
it) leaves `mcCtrlNo` and `sectionCtrlNo` unchanged whenever the update
payload does not supply them (the `payload.field ?? current.field` merge); a
payload that does supply them overwrites the stored values. -/
theorem c8_update_preserves_ctrlnos_when_payload_omits (db : DB) (rid : Nat)
    (p : Payload) (now : Str) (current : RecordRow)
    (hfind : getRecord db rid = some current)
    (hmc : p.mcCtrlNo = none) (hsc : p.sectionCtrlNo = none) :
    (updateRecord db rid p now).1 = some (mergeUpdate current p now) ∧
    (mergeUpdate current p now).mcCtrlNo = current.mcCtrlNo ∧
    (mergeUpdate current p now).sectionCtrlNo = current.sectionCtrlNo ∧
    getRecord (updateRecord db rid p now).2 rid = some (mergeUpdate current p now) := by
  have h1 : updateRecord db rid p now
      = (some (mergeUpdate current p now),
         { db with records := db.records.map (fun r =>
             if r.id = rid then mergeUpdate current p now else r) }) := by
    unfold updateRecord
    rw [hfind]
  refine ⟨by rw [h1], ?_, ?_, ?_⟩
  · simp [mergeUpdate, hmc, nullishOr]
  · simp [mergeUpdate, hsc, nullishOr]
  · rw [h1]
    exact find?_update_map db.records rid current (mergeUpdate current p now) hfind rfl

theorem c8_update_preserves_ctrlnos_witness :
    getRecord dbUpd 1 = some rUpd ∧
      (updateRecord dbUpd 1 {} tNow).1 = some (mergeUpdate rUpd {} tNow) ∧
      (mergeUpdate rUpd {} tNow).mcCtrlNo = rUpd.mcCtrlNo ∧
      (mergeUpdate rUpd {} tNow).sectionCtrlNo = rUpd.sectionCtrlNo :=
  ⟨by decide,
   (c8_update_preserves_ctrlnos_when_payload_omits dbUpd 1 {} tNow rUpd
     (by decide) rfl rfl).1,
   (c8_update_preserves_ctrlnos_when_payload_omits dbUpd 1 {} tNow rUpd
     (by decide) rfl rfl).2.1,
   (c8_update_preserves_ctrlnos_when_payload_omits dbUpd 1 {} tNow rUpd
     (by decide) rfl rfl).2.2.1⟩

/-- C9: the `DELETE /records/:id` handler deletes the record and answers
`{ ok: true }` (HTTP 200) regardless of whether the subsequent
`resetCountersForSection` / `validateControlNumbers` repair succeeds; a
repair failure is surfaced only as the advisory warning string, and the
deletion is never undone — the final state never contains the record. -/
theorem c9_delete_repair_nonfatal (db : DB) (rid : Nat) (record : RecordRow)
    (failure : Option (List CounterRow))
    (hfind : getRecord db rid = some record) :
    (deleteRecordHandler db rid failure).1.status = 200 ∧
    (deleteRecordHandler db rid failure).1.ok = true ∧
    (∀ r ∈ (deleteRecordHandler db rid failure).2.records, r.id ≠ rid) ∧
    (deleteRecordHandler db rid failure).2.records = (deleteRecord db rid).records ∧
    (∀ cs, failure = some cs →
      (deleteRecordHandler db rid failure).1.warning = some deleteWarning) := by
  have hmem : ∀ r ∈ (deleteRecord db rid).records, r.id ≠ rid := by
    intro r hrm
    have := List.of_mem_filter hrm
    simpa using this
  cases failure with
  | some cs =>
      have hh : deleteRecordHandler db rid (some cs)
          = (⟨200, true, none, none, some deleteWarning⟩,
             { deleteRecord db rid with counters := cs }) := by
        unfold deleteRecordHandler
        rw [hfind]
      rw [hh]
      exact ⟨rfl, rfl, hmem, rfl, fun _ _ => rfl⟩
  | none =>
      have hh : deleteRecordHandler db rid none
          = (let rr := resetCountersForSection (deleteRecord db rid)
               record.sec record.dateReceived
             let v := validateControlNumbers rr.2 record.sec record.dateReceived
             (⟨200, true, some rr.1, if v.hasProblems then some v else none, none⟩, rr.2)) := by
        unfold deleteRecordHandler
        rw [hfind]
      rw [hh]
      refine ⟨rfl, rfl, ?_, rfl, fun _ h => Option.noConfusion h⟩
      intro r hrm
      exact hmem r hrm

theorem c9_delete_repair_nonfatal_witness :
    getRecord dbDel 7 = some rDel ∧
      (deleteRecordHandler dbDel 7 (some [])).1.ok = true ∧
      (deleteRecordHandler dbDel 7 (some [])).1.warning = some deleteWarning :=
  ⟨by decide,
   (c9_delete_repair_nonfatal dbDel 7 rDel (some []) (by decide)).2.1,
   (c9_delete_repair_nonfatal dbDel 7 rDel (some []) (by decide)).2.2.2.2 [] rfl⟩

/-- C1 counterexample: after creating one record in section `INVES` and one in
section `INTEL` for the same date (office-wide MC sequences `1` and `2`), the
exposed reset operation for `INVES` rewrites the office-wide counter from the
maximum over *that section's* records only — in the resulting reachable state
every stored record carries the counter's `lastDateUsed` date, yet the MC
counter's `currentNumber` (1) is not the highest MC sequence embedded across
the records of that date (2), refuting the invariant as claimed. -/
theorem c1_mc_counter_invariant_counterexample :
    (∀ r ∈ dbTwoSections.records, r.dateReceived = some dI) ∧
    ¬ (∀ c ∈ dbTwoSections.counters, c.scope = Scope.MC →
        c.currentNumber = (resetHighest dbTwoSections.records).1) := by
  refine ⟨by decide, by decide⟩

/-- C1 (amended): for every history built from the exposed operations
restricted to a single section and a single date — record creation through
the allocator pipeline, manual reset, and deletion with its repair — every
counter row in the reachable state carries that date as `lastDateUsed` and
holds exactly the highest sequence number embedded in the stored control
numbers for its scope.  With several sections sharing a date, the reset
operation computes the office-wide maximum only over the passed section's
records, so the office-wide half of the invariant fails (see the
counterexample). -/
theorem c1_counter_invariant_single_partition (s d : Str) (p : Payload) (now : Str)
    (hs : s ≠ []) (hd : isIsoDate d = true) (ops : List PartitionOp) :
    ∀ c ∈ (runPartitionOps s d p now ops).counters,
      c.lastDateUsed = some d ∧
      (c.scope = Scope.MC →
        c.currentNumber = (resetHighest (runPartitionOps s d p now ops).records).1) ∧
      (c.scope = Scope.SECTION →
        c.currentNumber = (resetHighest (runPartitionOps s d p now ops).records).2) := by
  intro c hc
  rcases CounterInv_runPartitionOps p now hs hd ops with ⟨hcnt, -⟩ |
    ⟨M, S, ⟨i1, i2, -, hcnt⟩, -, hrh⟩
  · rw [hcnt] at hc
    exact absurd hc (List.not_mem_nil c)
  · rw [hcnt] at hc
    rw [hrh]
    simp only [List.mem_cons, List.not_mem_nil, or_false] at hc
    rcases hc with rfl | rfl
    · exact ⟨rfl, fun _ => rfl, fun hsc => Scope.noConfusion hsc⟩
    · exact ⟨rfl, fun hsc => Scope.noConfusion hsc, fun _ => rfl⟩

theorem c1_counter_invariant_single_partition_witness :
    sI ≠ [] ∧ isIsoDate dI = true ∧
      (∀ c ∈ (runPartitionOps sI dI {} tNow
          [PartitionOp.createRec, PartitionOp.createRec,
           PartitionOp.deleteOp 1, PartitionOp.resetOp]).counters,
        c.lastDateUsed = some dI ∧
        (c.scope = Scope.MC →
          c.currentNumber = (resetHighest (runPartitionOps sI dI {} tNow
            [PartitionOp.createRec, PartitionOp.createRec,
             PartitionOp.deleteOp 1, PartitionOp.resetOp]).records).1) ∧
        (c.scope = Scope.SECTION →
          c.currentNumber = (resetHighest (runPartitionOps sI dI {} tNow
            [PartitionOp.createRec, PartitionOp.createRec,
             PartitionOp.deleteOp 1, PartitionOp.resetOp]).records).2)) :=
  ⟨by decide, by decide,
   c1_counter_invariant_single_partition sI dI {} tNow (by decide) (by decide)
     [PartitionOp.createRec, PartitionOp.createRec,
      PartitionOp.deleteOp 1, PartitionOp.resetOp]⟩
